import Mathlib

/-!
Shallow embedding of the FTCLink-v2 cache service and its background refresh
logic, together with theorems checking the specification's claims against it.

Embedded source files:
- `dozer/native_cache.py` (`NativeCacheService`, `BackgroundCacheUpdater`)
- `dozer/supabase_cache.py` (`SupabaseCacheService`)
- `dozer/cogs/tba_webhooks.py` (`TBAWebhooks`)

Conventions: machine time is modelled as `Int` seconds; the database table
`ftc_api_cache` is a `List CacheRow` whose reachable states have pairwise
distinct `cache_key`s (the column is a PRIMARY KEY); Python payloads are
`PyData` trees, where `PyData.pyObject` stands for a Python object that
`json.dumps` cannot serialize; Python truthiness of optional strings is
`strTruthy` (both `None` and `""` are falsy).
-/

/-- A Python value handed to the cache as payload: a JSON-like tree
(`None` / `bool` / number / `str` / `list` / `dict`), or `pyObject`, an
arbitrary Python object that `json.dumps` rejects with `TypeError`. -/
inductive PyData where
  | null : PyData
  | boolean (b : Bool) : PyData
  | number (n : Int) : PyData
  | string (s : String) : PyData
  | array (items : List PyData) : PyData
  | object (fields : List (String × PyData)) : PyData
  | pyObject (typeName : String) : PyData

mutual

/-- Whether `json.dumps` succeeds on the value: true exactly when the tree
contains no `pyObject` node.  (`json.loads(json.dumps(x))` is the identity on
such trees in this model.) -/
def PyData.serializable : PyData → Bool
  | .null => true
  | .boolean _ => true
  | .number _ => true
  | .string _ => true
  | .array items => PyData.serializableList items
  | .object fields => PyData.serializableFields fields
  | .pyObject _ => false

/-- `serializable` on every element of a Python list. -/
def PyData.serializableList : List PyData → Bool
  | [] => true
  | x :: xs => PyData.serializable x && PyData.serializableList xs

/-- `serializable` on every value of a Python dict. -/
def PyData.serializableFields : List (String × PyData) → Bool
  | [] => true
  | (_, v) :: fs => PyData.serializable v && PyData.serializableFields fs

end

/-- Python truthiness of an `Optional[str]` argument: `None` and the empty
string are falsy, every other string is truthy. -/
def strTruthy : Option String → Bool
  | none => false
  | some s => !(s == "")

/-- One row of the `ftc_api_cache` table (`FTCCacheTable` in
`dozer/cogs/_db_models.py`): `cache_key text PRIMARY KEY`,
`cache_type text`, `cache_data jsonb`, `season int` (nullable),
`last_updated timestamp`. -/
structure CacheRow where
  cache_key : String
  cache_type : String
  cache_data : PyData
  season : Option Int
  last_updated : Int

/-- The table keyed by a genuine PRIMARY KEY: all `cache_key`s distinct. -/
def keysNodup (store : List CacheRow) : Prop :=
  (store.map (fun r => r.cache_key)).Nodup

namespace NativeCache

/-- `NativeCacheService.CACHE_INTERVALS` from `dozer/native_cache.py`. -/
def CACHE_INTERVALS : List (String × Int) :=
  [("events", 3600), ("matches", 60), ("rankings", 60),
   ("teams", 86400), ("opr_stats", 300)]

/-- `self.CACHE_INTERVALS.get(cache_type, 3600)`. -/
def cacheExpiry (cache_type : String) : Int :=
  (CACHE_INTERVALS.lookup cache_type).getD 3600

/-- `NativeCacheService.get_cached_data`: returns `None` when the pool is
falsy; otherwise fetches the row with this key and type whose
`last_updated > NOW() - INTERVAL expiry` (strict), returning its
`cache_data`, and `None` when no such row exists. -/
def get_cached_data (pool : Bool) (store : List CacheRow) (now : Int)
    (cache_type cache_key : String) : Option PyData :=
  if !pool then none
  else
    match store.find? (fun r =>
        r.cache_key == cache_key && r.cache_type == cache_type &&
        decide (now - cacheExpiry cache_type < r.last_updated)) with
    | some r => some r.cache_data
    | none => none

/-- `INSERT ... ON CONFLICT (cache_key) DO UPDATE`: replace the row with the
same key, or append a new row. -/
def upsertRow (store : List CacheRow) (row : CacheRow) : List CacheRow :=
  if store.any (fun r => r.cache_key == row.cache_key) then
    store.map (fun r => if r.cache_key == row.cache_key then row else r)
  else
    store ++ [row]

/-- `NativeCacheService.set_cached_data`: returns `False` when the pool is
falsy; raises (caught, returning `False` with the table untouched) when the
payload is not JSON-serializable; otherwise upserts the row with
`last_updated = NOW()` and returns `True`. -/
def set_cached_data (pool : Bool) (store : List CacheRow) (now : Int)
    (cache_type cache_key : String) (data : PyData) (season : Option Int) :
    Bool × List CacheRow :=
  if !pool then (false, store)
  else if data.serializable then
    (true, upsertRow store ⟨cache_key, cache_type, data, season, now⟩)
  else
    (false, store)

/-- `NativeCacheService.invalidate_cache`: `if cache_key:` delete by key,
`elif cache_type:` delete by type, else `TRUNCATE`. -/
def invalidate_cache (pool : Bool) (store : List CacheRow)
    (cache_type cache_key : Option String) : Bool × List CacheRow :=
  if !pool then (false, store)
  else if strTruthy cache_key then
    (true, store.filter (fun r => !(r.cache_key == cache_key.getD "")))
  else if strTruthy cache_type then
    (true, store.filter (fun r => !(r.cache_type == cache_type.getD "")))
  else
    (true, [])

/-- One row of the `GROUP BY cache_type` aggregate in `get_cache_stats`. -/
structure TypeStat where
  count : Nat
  newest : Option Int
  oldest : Option Int
deriving DecidableEq

/-- Result of `NativeCacheService.get_cache_stats`: either the error dict
`{'error': ...}` or the stats dict with `total_entries` and `by_type`. -/
inductive StatsResult where
  | error (msg : String) : StatsResult
  | ok (total_entries : Nat) (by_type : List (String × TypeStat)) : StatsResult
deriving DecidableEq

/-- `total_entries` of a stats result (0 on the error dict). -/
def StatsResult.total : StatsResult → Nat
  | .error _ => 0
  | .ok t _ => t

/-- `by_type` of a stats result (empty on the error dict). -/
def StatsResult.byType : StatsResult → List (String × TypeStat)
  | .error _ => []
  | .ok _ b => b

/-- `NativeCacheService.get_cache_stats`: error dict when the pool is falsy;
otherwise `SELECT cache_type, COUNT(*), MAX(last_updated), MIN(last_updated)
... GROUP BY cache_type`, with `total_entries` computed in Python as the sum
of the per-group counts. -/
def get_cache_stats (pool : Bool) (store : List CacheRow) : StatsResult :=
  if !pool then .error "Database not initialized"
  else
    let groups := ((store.map (fun r => r.cache_type)).dedup).map (fun t =>
      let rows := store.filter (fun r => r.cache_type == t)
      (t, TypeStat.mk rows.length
            ((rows.map (fun r => r.last_updated)).max?)
            ((rows.map (fun r => r.last_updated)).min?)))
    .ok ((groups.map (fun g => g.2.count)).sum) groups

end NativeCache

namespace SupabaseCache

/-- `SupabaseCacheService.CACHE_INTERVALS` from `dozer/supabase_cache.py`
(identical table of seconds). -/
def CACHE_INTERVALS : List (String × Int) :=
  [("events", 3600), ("matches", 60), ("rankings", 60),
   ("teams", 86400), ("opr_stats", 300)]

/-- `self.CACHE_INTERVALS.get(cache_type, 3600)`. -/
def cacheExpiry (cache_type : String) : Int :=
  (CACHE_INTERVALS.lookup cache_type).getD 3600

/-- `SupabaseCacheService.get_cached_data`: selects rows with this key and
type whose `last_updated >= cutoff` where
`cutoff = now - expiry` (inclusive `gte` filter), limit 1. -/
def get_cached_data (store : List CacheRow) (now : Int)
    (cache_type cache_key : String) : Option PyData :=
  match store.find? (fun r =>
      r.cache_key == cache_key && r.cache_type == cache_type &&
      decide (now - cacheExpiry cache_type ≤ r.last_updated)) with
  | some r => some r.cache_data
  | none => none

/-- `SupabaseCacheService.set_cached_data`: serialization failure is caught
and returns `False` with the table untouched; otherwise upserts
(`on_conflict='cache_key'`) with `last_updated = now` and returns `True`. -/
def set_cached_data (store : List CacheRow) (now : Int)
    (cache_type cache_key : String) (data : PyData) (season : Option Int) :
    Bool × List CacheRow :=
  if data.serializable then
    (true, NativeCache.upsertRow store ⟨cache_key, cache_type, data, season, now⟩)
  else
    (false, store)

/-- `SupabaseCacheService.invalidate_cache`: `if cache_key:` delete by key,
`elif cache_type:` delete by type, else delete with no filter (all rows). -/
def invalidate_cache (store : List CacheRow)
    (cache_type cache_key : Option String) : Bool × List CacheRow :=
  if strTruthy cache_key then
    (true, store.filter (fun r => !(r.cache_key == cache_key.getD "")))
  else if strTruthy cache_type then
    (true, store.filter (fun r => !(r.cache_type == cache_type.getD "")))
  else
    (true, [])

/-- Result of `SupabaseCacheService.get_cache_stats`: the returned dict holds
only `total_entries` (and a wall-clock timestamp, not modelled) — there is no
per-category breakdown in this backend. -/
structure SupaStats where
  total_entries : Nat
deriving DecidableEq

/-- `SupabaseCacheService.get_cache_stats`: `select('cache_type',
count='exact')` over the whole table, so `total_entries` is the row count. -/
def get_cache_stats (store : List CacheRow) : SupaStats :=
  ⟨store.length⟩

end SupabaseCache

namespace Updater

/-- `timedelta(days=1)` in seconds: the activity grace period in
`BackgroundCacheUpdater._refresh_events_cache`. -/
def graceSeconds : Int := 86400

/-- One event of the upstream listing, with its parsed `dateStart` /
`dateEnd` and its `code`. -/
structure EventInfo where
  code : String
  dateStart : Int
  dateEnd : Int

/-- `self.active_events.add(code)`: Python set add. -/
def setAdd (s : List String) (code : String) : List String :=
  if code ∈ s then s else code :: s

/-- `self.active_events.discard(code)`: Python set discard. -/
def setDiscard (s : List String) (code : String) : List String :=
  s.filter (fun x => !(x == code))

/-- The per-event classification step of
`BackgroundCacheUpdater._refresh_events_cache`:
`if event_date <= now <= event_end + timedelta(days=1): add`
`elif event['code'] in active_events and now > event_end + timedelta(days=1): discard`. -/
def classifyEvent (active : List String) (now : Int) (ev : EventInfo) :
    List String :=
  if ev.dateStart ≤ now ∧ now ≤ ev.dateEnd + graceSeconds then
    setAdd active ev.code
  else if ev.code ∈ active ∧ now > ev.dateEnd + graceSeconds then
    setDiscard active ev.code
  else
    active

/-- The classification loop over the upstream events listing (in listing
order), taken from `_refresh_events_cache`. -/
def refreshEventsClassify (active : List String) (now : Int)
    (events : List EventInfo) : List String :=
  events.foldl (fun acc ev => classifyEvent acc now ev) active

/-- `BackgroundCacheUpdater.add_active_event`. -/
def add_active_event (active : List String) (event_code : String) :
    List String :=
  setAdd active event_code

/-- `BackgroundCacheUpdater.remove_active_event`. -/
def remove_active_event (active : List String) (event_code : String) :
    List String :=
  setDiscard active event_code

/-- How one pass of a background loop body ends: normally, with an uncaught
`Exception`, or with `asyncio.CancelledError`. -/
inductive PassOutcome where
  | ok : PassOutcome
  | error (msg : String) : PassOutcome
  | cancelled : PassOutcome
deriving DecidableEq

/-- One iteration of `BackgroundCacheUpdater._cache_events_loop`:
`some n` means the loop sleeps `n` seconds and iterates again, `none` means
the `break` on cancellation. -/
def eventsLoopStep : PassOutcome → Option Nat
  | .ok => some 3600
  | .error _ => some 300
  | .cancelled => none

/-- One iteration of `BackgroundCacheUpdater._cache_active_matches_loop`. -/
def matchesLoopStep : PassOutcome → Option Nat
  | .ok => some 60
  | .error _ => some 60
  | .cancelled => none

/-- One iteration of `BackgroundCacheUpdater._cache_active_rankings_loop`. -/
def rankingsLoopStep : PassOutcome → Option Nat
  | .ok => some 60
  | .error _ => some 60
  | .cancelled => none

/-- Run a `while True` loop against a script of pass outcomes: collect the
sleep interval of every iteration actually executed, stopping at the first
cancellation. -/
def runLoop (step : PassOutcome → Option Nat) : List PassOutcome → List Nat
  | [] => []
  | o :: os =>
    match step o with
    | none => []
    | some n => n :: runLoop step os

/-- A cache write performed by a refresh pass. -/
structure CacheWrite where
  cache_type : String
  cache_key : String

/-- How refreshing one entity (one `event_code` of the `for` loop in
`_refresh_matches_cache` / `_refresh_rankings_cache`) ends: `done` with its
writes, or `failed` after some prefix of its writes, raising an exception. -/
inductive EntityResult where
  | done (writes : List CacheWrite) : EntityResult
  | failed (writes : List CacheWrite) (err : String) : EntityResult

/-- The writes an entity refresh performed before finishing or failing. -/
def EntityResult.writes : EntityResult → List CacheWrite
  | .done ws => ws
  | .failed ws _ => ws

/-- The `for event_code in list(self.active_events):` loop of
`_refresh_matches_cache` / `_refresh_rankings_cache`: each entity's body runs
under its own `try`/`except Exception`, so a failing entity contributes the
writes it already made and iteration continues with the next entity. -/
def refreshPass (active : List String) (fetch : String → EntityResult) :
    List CacheWrite :=
  match active with
  | [] => []
  | e :: rest =>
    match fetch e with
    | .done ws => ws ++ refreshPass rest fetch
    | .failed ws _ => ws ++ refreshPass rest fetch

end Updater

namespace Webhooks

/-- Python truthiness of a `PyData` value (used by the `or` in
`message_data.get('event_key') or ...`). -/
def pyTruthy : PyData → Bool
  | .null => false
  | .boolean b => b
  | .number n => !(n == 0)
  | .string s => !(s == "")
  | .array items => !items.isEmpty
  | .object fields => !fields.isEmpty
  | .pyObject _ => true

/-- One row of the `tba_webhook_events` append-only log (surrogate `id`
omitted: it is the position in the list). -/
structure EventRow where
  message_type : PyData
  event_key : Option PyData
  event_data : PyData

/-- The row built by the extraction step of
`TBAWebhooks._process_webhook_event` from a parsed payload:
`message_type = payload.get('message_type', 'unknown')`,
`message_data = payload.get('message_data', {})`,
`event_key = message_data.get('event_key') or
message_data.get('event', {}).get('key')`.
Python's `.get` exists only on `dict`: calling it on any other JSON value
raises `AttributeError`, modelled as `none` — the exception escapes
`_process_webhook_event` (the extraction happens before its inner `try`)
and reaches `handle_webhook`'s outer `except`.  This raising happens when
the payload itself is not an object, when its `message_data` value is not
an object, or when `event_key` is absent/falsy and the `event` value
consulted by the second `.get` chain is not an object. -/
def mkEventRow (payload : PyData) : Option EventRow :=
  match payload with
  | .object pfields =>
    let message_type := (pfields.lookup "message_type").getD (.string "unknown")
    match (pfields.lookup "message_data").getD (.object []) with
    | .object mfields =>
      match mfields.lookup "event_key" with
      | some v =>
        if pyTruthy v then
          some ⟨message_type, some v, .object mfields⟩
        else
          match (mfields.lookup "event").getD (.object []) with
          | .object efields =>
            some ⟨message_type, efields.lookup "key", .object mfields⟩
          | _ => none
      | none =>
        match (mfields.lookup "event").getD (.object []) with
        | .object efields =>
          some ⟨message_type, efields.lookup "key", .object mfields⟩
        | _ => none
    | _ => none
  | _ => none

/-- `TBAWebhooks._process_webhook_event`: `none` when the extraction step
raises (`AttributeError` on a non-dict `.get` target), propagating to the
caller; otherwise the event log after the call — one row appended when the
pool is truthy, unchanged when the pool is falsy (the `if Pool:` guard; a
storage error inside the inner `try` is caught there and also appends
nothing while still returning normally). -/
def process_webhook_event (pool : Bool) (log : List EventRow)
    (payload : PyData) : Option (List EventRow) :=
  match mkEventRow payload with
  | none => none
  | some row => some (if pool then log ++ [row] else log)

/-- `TBAWebhooks._verify_signature`: vacuously true without a configured
secret; otherwise `hmac.compare_digest(signature, hexdigest)` where
`hexdigest` is HMAC-SHA256 of the raw body under the secret.  The HMAC
primitive itself (`hmac`/`hashlib`, external libraries) is the abstract
parameter `mac : secret → body → hex digest`. -/
def verify_signature (webhook_secret : Option String)
    (mac : String → String → String) (body signature : String) : Bool :=
  if !(strTruthy webhook_secret) then true
  else signature == mac (webhook_secret.getD "") body

/-- `TBAWebhooks.handle_webhook`: returns the HTTP status and the event log
after the request.  `parse` is `json.loads` (external library), `none`
meaning `JSONDecodeError`; `headerSig` is the `X-TBA-Signature` header,
`request.headers.get(..., '')` turning a missing header into `""`.
Signature verification runs before any parsing when a secret is
configured; an exception escaping `_process_webhook_event` (a non-dict
`.get` target) is caught by the outer `except Exception` and answered with
500, no row appended. -/
def handle_webhook (webhook_secret : Option String)
    (mac : String → String → String) (parse : String → Option PyData)
    (pool : Bool) (log : List EventRow) (headerSig : Option String)
    (body : String) : Nat × List EventRow :=
  let proceed : Nat × List EventRow :=
    match parse body with
    | none => (400, log)
    | some payload =>
      match process_webhook_event pool log payload with
      | none => (500, log)
      | some log2 => (200, log2)
  if strTruthy webhook_secret then
    if verify_signature webhook_secret mac body (headerSig.getD "") then proceed
    else (401, log)
  else proceed

end Webhooks


/-- In a table with pairwise-distinct keys, two rows sharing a key are the
same row. -/
theorem row_eq_of_same_key {store : List CacheRow} (hnd : keysNodup store)
    {r r' : CacheRow} (hr : r ∈ store) (hr' : r' ∈ store)
    (hk : r.cache_key = r'.cache_key) : r = r' :=
  List.inj_on_of_nodup_map hnd hr hr' hk

/-- Characterization of `find?` under a key-plus-extra-condition predicate on
a table with pairwise-distinct keys. -/
theorem find_by_key_iff (k : String) (q : CacheRow → Bool) :
    ∀ (store : List CacheRow), keysNodup store → ∀ (r : CacheRow),
      (store.find? (fun x => x.cache_key == k && q x) = some r ↔
        r ∈ store ∧ r.cache_key = k ∧ q r = true) := by
  intro store
  induction store with
  | nil => intro _ r; simp
  | cons x xs ih =>
    intro hnd r
    obtain ⟨hxk, hnd'⟩ : x.cache_key ∉ xs.map (fun s => s.cache_key) ∧ keysNodup xs := by
      simpa [keysNodup] using hnd
    rw [List.find?_cons]
    by_cases hx : (x.cache_key == k && q x) = true
    · simp only [hx]
      simp only [Bool.and_eq_true, beq_iff_eq] at hx
      simp only [Option.some.injEq]
      constructor
      · rintro rfl
        exact ⟨List.mem_cons_self _ _, hx.1, hx.2⟩
      · rintro ⟨hmem, hkey, hq⟩
        rcases List.mem_cons.mp hmem with rfl | hmem'
        · rfl
        · exfalso
          apply hxk
          rw [hx.1, ← hkey]
          exact List.mem_map.mpr ⟨r, hmem', rfl⟩
    · simp only [Bool.not_eq_true] at hx
      simp only [hx]
      rw [ih hnd' r]
      constructor
      · rintro ⟨hmem, hkey, hq⟩
        exact ⟨List.mem_cons_of_mem _ hmem, hkey, hq⟩
      · rintro ⟨hmem, hkey, hq⟩
        rcases List.mem_cons.mp hmem with rfl | hmem'
        · rw [hkey, hq] at hx
          simp at hx
        · exact ⟨hmem', hkey, hq⟩

/-- Upserting preserves the PRIMARY KEY invariant. -/
theorem keysNodup_upsertRow (store : List CacheRow) (row : CacheRow)
    (hnd : keysNodup store) : keysNodup (NativeCache.upsertRow store row) := by
  unfold NativeCache.upsertRow
  split
  · unfold keysNodup at hnd ⊢
    rw [List.map_map]
    have he : ∀ r ∈ store,
        ((fun s => s.cache_key) ∘
          (fun s => if s.cache_key == row.cache_key then row else s)) r =
        r.cache_key := by
      intro r _
      by_cases hr : (r.cache_key == row.cache_key) = true
      · simp only [Function.comp_apply, if_pos hr]
        exact (beq_iff_eq.mp hr).symm
      · simp only [Function.comp_apply, if_neg hr]
    rw [List.map_congr_left he]
    exact hnd
  · rename_i h
    unfold keysNodup at hnd ⊢
    rw [List.map_append]
    simp only [List.map_cons, List.map_nil]
    refine List.Nodup.append hnd (List.nodup_singleton _) ?_
    intro a ha hb
    simp only [List.mem_singleton] at hb
    subst hb
    apply h
    rw [List.any_eq_true]
    rcases List.mem_map.mp ha with ⟨r, hr, hkey⟩
    exact ⟨r, hr, by rw [hkey]; exact beq_self_eq_true _⟩

/-- The upserted row is in the table afterwards. -/
theorem mem_upsertRow_self (store : List CacheRow) (row : CacheRow) :
    row ∈ NativeCache.upsertRow store row := by
  unfold NativeCache.upsertRow
  split
  · rename_i h
    rw [List.any_eq_true] at h
    rcases h with ⟨r, hr, hkey⟩
    exact List.mem_map.mpr ⟨r, hr, by rw [if_pos hkey]⟩
  · exact List.mem_append.mpr (Or.inr (List.mem_cons_self _ _))

/-- Summing an equality indicator over a duplicate-free list containing the
value gives one. -/
theorem sum_indicator_count (x : String) :
    ∀ (ts : List String), ts.Nodup → x ∈ ts →
      (ts.map (fun t => if (x == t) = true then (1 : Nat) else 0)).sum = 1 := by
  intro ts
  induction ts with
  | nil => intro _ hx; cases hx
  | cons y ys ih =>
    intro hnd hx
    obtain ⟨hy, hnd'⟩ := List.nodup_cons.mp hnd
    rw [List.map_cons, List.sum_cons]
    rcases List.mem_cons.mp hx with rfl | hx'
    · rw [if_pos (beq_self_eq_true x)]
      have hzero : (ys.map (fun t => if (x == t) = true then (1 : Nat) else 0)).sum = 0 := by
        apply List.sum_eq_zero
        intro n hn
        rcases List.mem_map.mp hn with ⟨t, ht, hteq⟩
        have hne : ¬ (x == t) = true := by
          intro hcontra
          exact hy (beq_iff_eq.mp hcontra ▸ ht)
        rw [if_neg hne] at hteq
        exact hteq.symm
      rw [hzero]
    · have hne : ¬ (x == y) = true := by
        intro hcontra
        rw [beq_iff_eq.mp hcontra] at hx'
        exact hy hx'
      rw [if_neg hne, ih hnd' hx']

/-- Splitting the sum of a pointwise sum of two maps. -/
theorem sum_map_add_split (f g : String → Nat) :
    ∀ (ts : List String),
      (ts.map (fun t => f t + g t)).sum = (ts.map f).sum + (ts.map g).sum := by
  intro ts
  induction ts with
  | nil => simp
  | cons y ys ih => simp [ih]; omega

/-- Summing, over the distinct elements of a list, the number of occurrences
of each, gives the length of the list. -/
theorem sum_counts_dedup : ∀ (l : List String),
    (l.dedup.map (fun t => l.countP (fun s => s == t))).sum = l.length := by
  intro l
  induction l with
  | nil => simp
  | cons a xs ih =>
    have hcong : ∀ t ∈ xs.dedup,
        (a :: xs).countP (fun s => s == t) =
          xs.countP (fun s => s == t) + if (a == t) = true then 1 else 0 := by
      intro t _
      rw [List.countP_cons]
    by_cases ha : a ∈ xs
    · rw [List.dedup_cons_of_mem ha]
      rw [List.map_congr_left hcong, sum_map_add_split, ih,
        sum_indicator_count a xs.dedup (List.nodup_dedup xs) (List.mem_dedup.mpr ha)]
      simp
    · rw [List.dedup_cons_of_not_mem ha, List.map_cons, List.sum_cons]
      have hhead : (a :: xs).countP (fun s => s == a) = 1 := by
        rw [List.countP_cons]
        have hzero : xs.countP (fun s => s == a) = 0 := by
          rw [List.countP_eq_zero]
          intro s hs hcontra
          exact ha (beq_iff_eq.mp hcontra ▸ hs)
        rw [hzero, if_pos (beq_self_eq_true a)]
      have htail : (xs.dedup.map (fun t => (a :: xs).countP (fun s => s == t))).sum =
          xs.length := by
        have hcong' : ∀ t ∈ xs.dedup,
            (a :: xs).countP (fun s => s == t) = xs.countP (fun s => s == t) := by
          intro t ht
          rw [List.countP_cons]
          have hne : ¬ (a == t) = true := by
            intro hcontra
            exact ha (beq_iff_eq.mp hcontra ▸ List.mem_dedup.mp ht)
          rw [if_neg hne]
          omega
        rw [List.map_congr_left hcong', ih]
      rw [hhead, htail]
      simp [Nat.add_comm]

/-- The sum of per-category counts computed by `get_cache_stats` is the row
count of the table. -/
theorem stats_total_eq_length (store : List CacheRow) :
    (NativeCache.get_cache_stats true store).total = store.length := by
  unfold NativeCache.get_cache_stats
  simp only [Bool.not_true, Bool.false_eq_true, if_false, NativeCache.StatsResult.total,
    List.map_map]
  have hcong : ∀ t ∈ (store.map (fun r => r.cache_type)).dedup,
      ((fun g : String × NativeCache.TypeStat => g.2.count) ∘
        (fun t =>
          (t, NativeCache.TypeStat.mk
                (store.filter (fun r => r.cache_type == t)).length
                (((store.filter (fun r => r.cache_type == t)).map
                    (fun r => r.last_updated)).max?)
                (((store.filter (fun r => r.cache_type == t)).map
                    (fun r => r.last_updated)).min?)))) t =
      (store.map (fun r => r.cache_type)).countP (fun s => s == t) := by
    intro t _
    simp only [Function.comp_apply]
    rw [List.countP_map]
    rw [List.countP_eq_length_filter]
    rfl
  rw [List.map_congr_left hcong]
  have := sum_counts_dedup (store.map (fun r => r.cache_type))
  rw [this, List.length_map]

/-- Deleting by a key actually present in a PRIMARY-KEY table shrinks it by
exactly one row. -/
theorem filter_out_key_length {store : List CacheRow} (hnd : keysNodup store)
    {K : String} (hx : ∃ r ∈ store, r.cache_key = K) :
    (store.filter (fun x => !(x.cache_key == K))).length + 1 = store.length := by
  induction store with
  | nil => rcases hx with ⟨r, hr, _⟩; cases hr
  | cons x xs ih =>
    obtain ⟨hxk, hnd'⟩ : x.cache_key ∉ xs.map (fun s => s.cache_key) ∧ keysNodup xs := by
      simpa [keysNodup] using hnd
    by_cases hk : x.cache_key = K
    · rw [List.filter_cons]
      have : (!(x.cache_key == K)) = false := by simp [hk]
      rw [this]
      simp only [Bool.false_eq_true, if_false]
      have hall : xs.filter (fun x => !(x.cache_key == K)) = xs := by
        rw [List.filter_eq_self]
        intro r hr
        have : r.cache_key ≠ K := by
          intro hrk
          exact hxk (List.mem_map.mpr ⟨r, hr, by rw [hrk, hk]⟩)
        simp [this]
      rw [hall, List.length_cons]
    · rw [List.filter_cons]
      have : (!(x.cache_key == K)) = true := by simp [hk]
      rw [this]
      simp only [if_true, List.length_cons]
      have hx' : ∃ r ∈ xs, r.cache_key = K := by
        rcases hx with ⟨r, hr, hrk⟩
        rcases List.mem_cons.mp hr with rfl | hr'
        · exact absurd hrk hk
        · exact ⟨r, hr', hrk⟩
      rw [← ih hnd' hx']

/-- Deleting by a key absent from the table leaves it unchanged. -/
theorem filter_out_key_absent {store : List CacheRow} {K : String}
    (hx : ∀ r ∈ store, r.cache_key ≠ K) :
    store.filter (fun x => !(x.cache_key == K)) = store := by
  rw [List.filter_eq_self]
  intro r hr
  simp [hx r hr]

/-- Membership in a Python set after `add`. -/
theorem mem_setAdd (s : List String) (c x : String) :
    x ∈ Updater.setAdd s c ↔ x = c ∨ x ∈ s := by
  unfold Updater.setAdd
  split
  · rename_i h
    constructor
    · exact Or.inr
    · rintro (rfl | hx)
      · exact h
      · exact hx
  · rw [List.mem_cons]

/-- Membership in a Python set after `discard`. -/
theorem mem_setDiscard (s : List String) (c x : String) :
    x ∈ Updater.setDiscard s c ↔ x ∈ s ∧ x ≠ c := by
  unfold Updater.setDiscard
  rw [List.mem_filter]
  simp

/-- Classifying an event only touches that event's own code. -/
theorem mem_classifyEvent_of_ne (active : List String) (now : Int)
    (ev : Updater.EventInfo) (c : String) (h : c ≠ ev.code) :
    c ∈ Updater.classifyEvent active now ev ↔ c ∈ active := by
  unfold Updater.classifyEvent
  split
  · rw [mem_setAdd]
    simp [h]
  · split
    · rw [mem_setDiscard]
      simp [h]
    · exact Iff.rfl

/-- Folding classification over events none of which carry the code leaves
the code's membership unchanged. -/
theorem mem_refreshEventsClassify_of_notin (now : Int) :
    ∀ (events : List Updater.EventInfo) (active : List String) (c : String),
      c ∉ events.map Updater.EventInfo.code →
      (c ∈ Updater.refreshEventsClassify active now events ↔ c ∈ active) := by
  intro events
  induction events with
  | nil => intro active c _; exact Iff.rfl
  | cons ev evs ih =>
    intro active c hc
    have h1 : c ≠ ev.code := by
      intro h
      apply hc
      rw [List.map_cons, h]
      exact List.mem_cons_self _ _
    have h2 : c ∉ evs.map Updater.EventInfo.code := by
      intro h
      exact hc (by rw [List.map_cons]; exact List.mem_cons_of_mem _ h)
    unfold Updater.refreshEventsClassify at ih ⊢
    rw [List.foldl_cons]
    rw [ih (Updater.classifyEvent active now ev) c h2,
      mem_classifyEvent_of_ne active now ev c h1]

/-- An event whose grace period is over is not in the active set after its
classification step. -/
theorem not_mem_classifyEvent_past_grace (active : List String) (now : Int)
    (ev : Updater.EventInfo) (h : now > ev.dateEnd + Updater.graceSeconds) :
    ev.code ∉ Updater.classifyEvent active now ev := by
  unfold Updater.classifyEvent
  rw [if_neg (by intro hcontra; exact absurd hcontra.2 (not_le.mpr h))]
  split
  · rw [mem_setDiscard]
    simp
  · rename_i h2
    intro hmem
    exact h2 ⟨hmem, h⟩

/-- An event whose window (with grace) contains now is in the active set
after its classification step. -/
theorem mem_classifyEvent_in_window (active : List String) (now : Int)
    (ev : Updater.EventInfo) (h1 : ev.dateStart ≤ now)
    (h2 : now ≤ ev.dateEnd + Updater.graceSeconds) :
    ev.code ∈ Updater.classifyEvent active now ev := by
  unfold Updater.classifyEvent
  rw [if_pos ⟨h1, h2⟩, mem_setAdd]
  left
  rfl

/-- One step of the per-entity refresh loop. -/
theorem refreshPass_cons (e : String) (rest : List String)
    (fetch : String → Updater.EntityResult) :
    Updater.refreshPass (e :: rest) fetch =
      (fetch e).writes ++ Updater.refreshPass rest fetch := by
  cases hf : fetch e with
  | done ws => simp [Updater.refreshPass, hf, Updater.EntityResult.writes]
  | failed ws err => simp [Updater.refreshPass, hf, Updater.EntityResult.writes]

/-- The per-entity refresh loop distributes over list append: earlier
entities (failing or not) never cut later entities off. -/
theorem refreshPass_append (l1 l2 : List String)
    (fetch : String → Updater.EntityResult) :
    Updater.refreshPass (l1 ++ l2) fetch =
      Updater.refreshPass l1 fetch ++ Updater.refreshPass l2 fetch := by
  induction l1 with
  | nil => rfl
  | cons e es ih =>
    rw [List.cons_append, refreshPass_cons, refreshPass_cons, ih,
      List.append_assoc]

/-- A background loop whose script contains no cancellation executes every
pass: the loop never terminates on an error. -/
theorem runLoop_length (step : Updater.PassOutcome → Option Nat)
    (hstep : ∀ o, o ≠ Updater.PassOutcome.cancelled → (step o).isSome = true) :
    ∀ outs : List Updater.PassOutcome,
      (∀ o ∈ outs, o ≠ Updater.PassOutcome.cancelled) →
      (Updater.runLoop step outs).length = outs.length := by
  intro outs
  induction outs with
  | nil => intro _; rfl
  | cons o os ih =>
    intro h
    have ho := hstep o (h o (List.mem_cons_self _ _))
    unfold Updater.runLoop
    rcases Option.isSome_iff_exists.mp ho with ⟨n, hn⟩
    rw [hn]
    simp only [List.length_cons]
    rw [ih (fun x hx => h x (List.mem_cons_of_mem _ hx))]

/-- `get_cached_data` with a live pool, with its `WHERE` predicate written in
right-associated form. -/
theorem get_eq_matcher (store : List CacheRow) (now : Int) (C K : String) :
    NativeCache.get_cached_data true store now C K =
      match store.find? (fun r => r.cache_key == K &&
          (r.cache_type == C &&
            decide (now - NativeCache.cacheExpiry C < r.last_updated))) with
      | some r => some r.cache_data
      | none => none := by
  unfold NativeCache.get_cached_data
  simp only [Bool.not_true, Bool.and_assoc]
  rfl

/-- The Supabase `get_cached_data`, with its filter predicate written in
right-associated form. -/
theorem supa_get_eq_matcher (store : List CacheRow) (now : Int) (C K : String) :
    SupabaseCache.get_cached_data store now C K =
      match store.find? (fun r => r.cache_key == K &&
          (r.cache_type == C &&
            decide (now - SupabaseCache.cacheExpiry C ≤ r.last_updated))) with
      | some r => some r.cache_data
      | none => none := by
  unfold SupabaseCache.get_cached_data
  simp only [Bool.and_assoc]

/-- Full characterization of a native cache hit. -/
theorem native_get_some_iff (store : List CacheRow) (now : Int) (C K : String)
    (hnd : keysNodup store) (d : PyData) :
    NativeCache.get_cached_data true store now C K = some d ↔
      ∃ r ∈ store, r.cache_key = K ∧ r.cache_type = C ∧
        now - NativeCache.cacheExpiry C < r.last_updated ∧ r.cache_data = d := by
  have hq := find_by_key_iff K
    (fun x => x.cache_type == C &&
      decide (now - NativeCache.cacheExpiry C < x.last_updated)) store hnd
  rw [get_eq_matcher]
  cases hf : store.find? (fun r => r.cache_key == K &&
      (r.cache_type == C &&
        decide (now - NativeCache.cacheExpiry C < r.last_updated))) with
  | some r =>
    have hr := (hq r).mp hf
    obtain ⟨hmem, hkey, hcond⟩ := hr
    simp only [Bool.and_eq_true, beq_iff_eq, decide_eq_true_eq] at hcond
    constructor
    · intro h
      have hsome : some r.cache_data = some d := h
      exact ⟨r, hmem, hkey, hcond.1, hcond.2, Option.some.inj hsome⟩
    · rintro ⟨r', hmem', hkey', -, -, hd'⟩
      have heq : r' = r := row_eq_of_same_key hnd hmem' hmem (by rw [hkey', hkey])
      subst heq
      show some r'.cache_data = some d
      rw [hd']
  | none =>
    constructor
    · intro h
      have hno : (none : Option PyData) = some d := h
      exact Option.noConfusion hno
    · rintro ⟨r', hmem', hkey', htype', hfresh', hd'⟩
      exfalso
      apply List.find?_eq_none.mp hf r' hmem'
      simp only [Bool.and_eq_true, beq_iff_eq, decide_eq_true_eq]
      exact ⟨hkey', htype', hfresh'⟩

/-- Full characterization of a Supabase cache hit. -/
theorem supa_get_some_iff (store : List CacheRow) (now : Int) (C K : String)
    (hnd : keysNodup store) (d : PyData) :
    SupabaseCache.get_cached_data store now C K = some d ↔
      ∃ r ∈ store, r.cache_key = K ∧ r.cache_type = C ∧
        now - SupabaseCache.cacheExpiry C ≤ r.last_updated ∧ r.cache_data = d := by
  have hq := find_by_key_iff K
    (fun x => x.cache_type == C &&
      decide (now - SupabaseCache.cacheExpiry C ≤ x.last_updated)) store hnd
  rw [supa_get_eq_matcher]
  cases hf : store.find? (fun r => r.cache_key == K &&
      (r.cache_type == C &&
        decide (now - SupabaseCache.cacheExpiry C ≤ r.last_updated))) with
  | some r =>
    have hr := (hq r).mp hf
    obtain ⟨hmem, hkey, hcond⟩ := hr
    simp only [Bool.and_eq_true, beq_iff_eq, decide_eq_true_eq] at hcond
    constructor
    · intro h
      have hsome : some r.cache_data = some d := h
      exact ⟨r, hmem, hkey, hcond.1, hcond.2, Option.some.inj hsome⟩
    · rintro ⟨r', hmem', hkey', -, -, hd'⟩
      have heq : r' = r := row_eq_of_same_key hnd hmem' hmem (by rw [hkey', hkey])
      subst heq
      show some r'.cache_data = some d
      rw [hd']
  | none =>
    constructor
    · intro h
      have hno : (none : Option PyData) = some d := h
      exact Option.noConfusion hno
    · rintro ⟨r', hmem', hkey', htype', hfresh', hd'⟩
      exfalso
      apply List.find?_eq_none.mp hf r' hmem'
      simp only [Bool.and_eq_true, beq_iff_eq, decide_eq_true_eq]
      exact ⟨hkey', htype', hfresh'⟩

/-- A stale row (stored at least the expiry ago) makes the native get miss. -/
theorem native_get_stale_none (store : List CacheRow) (now : Int) (C K : String)
    (hnd : keysNodup store) (r : CacheRow) (hr : r ∈ store)
    (hk : r.cache_key = K) (ht : r.cache_type = C)
    (hstale : NativeCache.cacheExpiry C ≤ now - r.last_updated) :
    NativeCache.get_cached_data true store now C K = none := by
  rw [get_eq_matcher]
  have hnone : store.find? (fun x => x.cache_key == K &&
      (x.cache_type == C &&
        decide (now - NativeCache.cacheExpiry C < x.last_updated))) = none := by
    rw [List.find?_eq_none]
    intro x hx hpx
    simp only [Bool.and_eq_true, beq_iff_eq, decide_eq_true_eq] at hpx
    obtain ⟨hxk, -, hxf⟩ := hpx
    have hxr : x = r := row_eq_of_same_key hnd hx hr (by rw [hxk, hk])
    subst hxr
    omega
  rw [hnone]

/-- C1 (amended): freshness in the native backend is strict — with a live
pool, `get(C,K)` returns the stored payload iff the entry exists and
`now - lastUpdated < expiry[C]` (at `now - lastUpdated = expiry[C]` it
already misses); the Supabase backend uses the inclusive bound
`now - lastUpdated <= expiry[C]` as the claim states.  The expiry table is
events=3600, matches=60, rankings=60, teams=86400, opr_stats=300, and 3600
for any unrecognized category; a stale entry is reported as a miss while its
row remains present in storage. -/
theorem claim_C1 (store : List CacheRow) (now : Int) (C K : String)
    (hnd : keysNodup store) :
    (∀ d, NativeCache.get_cached_data true store now C K = some d ↔
      ∃ r ∈ store, r.cache_key = K ∧ r.cache_type = C ∧
        now - r.last_updated < NativeCache.cacheExpiry C ∧ r.cache_data = d) ∧
    (∀ r ∈ store, r.cache_key = K → r.cache_type = C →
      NativeCache.cacheExpiry C ≤ now - r.last_updated →
      NativeCache.get_cached_data true store now C K = none) ∧
    (∀ d, SupabaseCache.get_cached_data store now C K = some d ↔
      ∃ r ∈ store, r.cache_key = K ∧ r.cache_type = C ∧
        now - r.last_updated ≤ SupabaseCache.cacheExpiry C ∧ r.cache_data = d) ∧
    NativeCache.cacheExpiry "events" = 3600 ∧
    NativeCache.cacheExpiry "matches" = 60 ∧
    NativeCache.cacheExpiry "rankings" = 60 ∧
    NativeCache.cacheExpiry "teams" = 86400 ∧
    NativeCache.cacheExpiry "opr_stats" = 300 ∧
    (∀ Cu : String,
      Cu ∉ ["events", "matches", "rankings", "teams", "opr_stats"] →
      NativeCache.cacheExpiry Cu = 3600) := by
  refine ⟨?_, ?_, ?_, rfl, rfl, rfl, rfl, rfl, ?_⟩
  · intro d
    rw [native_get_some_iff store now C K hnd d]
    constructor
    · rintro ⟨r, hmem, hkey, htype, hfresh, hdata⟩
      exact ⟨r, hmem, hkey, htype, by omega, hdata⟩
    · rintro ⟨r, hmem, hkey, htype, hfresh, hdata⟩
      exact ⟨r, hmem, hkey, htype, by omega, hdata⟩
  · intro r hr hk ht hstale
    exact native_get_stale_none store now C K hnd r hr hk ht hstale
  · intro d
    rw [supa_get_some_iff store now C K hnd d]
    constructor
    · rintro ⟨r, hmem, hkey, htype, hfresh, hdata⟩
      exact ⟨r, hmem, hkey, htype, by omega, hdata⟩
    · rintro ⟨r, hmem, hkey, htype, hfresh, hdata⟩
      exact ⟨r, hmem, hkey, htype, by omega, hdata⟩
  · intro Cu hCu
    simp only [List.mem_cons, List.not_mem_nil, or_false, not_or] at hCu
    obtain ⟨h1, h2, h3, h4, h5⟩ := hCu
    have b1 : (Cu == "events") = false := beq_eq_false_iff_ne.mpr h1
    have b2 : (Cu == "matches") = false := beq_eq_false_iff_ne.mpr h2
    have b3 : (Cu == "rankings") = false := beq_eq_false_iff_ne.mpr h3
    have b4 : (Cu == "teams") = false := beq_eq_false_iff_ne.mpr h4
    have b5 : (Cu == "opr_stats") = false := beq_eq_false_iff_ne.mpr h5
    unfold NativeCache.cacheExpiry NativeCache.CACHE_INTERVALS
    simp [List.lookup, b1, b2, b3, b4, b5]

/-- C1 counterexample: an entry stored exactly `expiry` seconds ago satisfies
the claim's `now - lastUpdated <= expiry[C]` condition, yet the native get
reports a miss (its SQL bound is strict). -/
theorem claim_C1_counterexample :
    NativeCache.get_cached_data true
      [⟨"k1", "matches", PyData.null, none, 0⟩] 60 "matches" "k1" = none ∧
    (⟨"k1", "matches", PyData.null, none, 0⟩ : CacheRow) ∈
      ([⟨"k1", "matches", PyData.null, none, 0⟩] : List CacheRow) ∧
    (60 : Int) - (0 : Int) ≤ NativeCache.cacheExpiry "matches" := by
  refine ⟨rfl, List.mem_singleton_self _, by decide⟩

/-- C1 witness: a fresh hit, a boundary miss with the row still present, and
the default expiry on an unrecognized category. -/
theorem claim_C1_witness :
    NativeCache.get_cached_data true
      [⟨"k1", "matches", PyData.null, none, 0⟩] 30 "matches" "k1" =
      some PyData.null ∧
    NativeCache.get_cached_data true
      [⟨"k1", "matches", PyData.null, none, 0⟩] 60 "matches" "k1" = none ∧
    NativeCache.cacheExpiry "mystery" = 3600 := by
  have h := claim_C1 [⟨"k1", "matches", PyData.null, none, 0⟩] 30 "matches" "k1"
    (by simp [keysNodup])
  have h60 := claim_C1 [⟨"k1", "matches", PyData.null, none, 0⟩] 60 "matches" "k1"
    (by simp [keysNodup])
  refine ⟨?_, ?_, ?_⟩
  · exact (h.1 PyData.null).mpr
      ⟨⟨"k1", "matches", PyData.null, none, 0⟩, List.mem_singleton_self _,
        rfl, rfl, by decide, rfl⟩
  · exact h60.2.1 ⟨"k1", "matches", PyData.null, none, 0⟩
      (List.mem_singleton_self _) rfl rfl (by decide)
  · exact h.2.2.2.2.2.2.2.2 "mystery" (by decide)

/-- C2: a successful `set(C,K,P)` at time `t` followed by `get(C,K)` at any
time `tg` inside the category's expiry window (`tg - t < expiry[C]`, which
covers the immediate read `tg = t`) returns exactly the payload written. -/
theorem claim_C2 (store : List CacheRow) (t tg : Int) (C K : String)
    (P : PyData) (season : Option Int) (hnd : keysNodup store)
    (hser : P.serializable = true)
    (hwin : tg - t < NativeCache.cacheExpiry C) :
    (NativeCache.set_cached_data true store t C K P season).1 = true ∧
    NativeCache.get_cached_data true
      (NativeCache.set_cached_data true store t C K P season).2 tg C K =
      some P := by
  have hset : NativeCache.set_cached_data true store t C K P season =
      (true, NativeCache.upsertRow store ⟨K, C, P, season, t⟩) := by
    unfold NativeCache.set_cached_data
    simp [hser]
  constructor
  · rw [hset]
  · rw [hset]
    apply (native_get_some_iff _ tg C K
      (keysNodup_upsertRow store ⟨K, C, P, season, t⟩ hnd) P).mpr
    exact ⟨⟨K, C, P, season, t⟩,
      mem_upsertRow_self store ⟨K, C, P, season, t⟩, rfl, rfl,
      (by omega : tg - NativeCache.cacheExpiry C < t), rfl⟩

/-- C2 witness: write then immediately read back a concrete payload. -/
theorem claim_C2_witness :
    NativeCache.get_cached_data true
      (NativeCache.set_cached_data true [] 0 "matches" "k" (PyData.number 7)
        none).2 0 "matches" "k" = some (PyData.number 7) :=
  (claim_C2 [] 0 0 "matches" "k" (PyData.number 7) none
    (by simp [keysNodup]) rfl (by decide)).2

/-- C3: a payload that is not representable as a JSON tree makes `set` fail
with `False` and leave the table — and hence every subsequent read — exactly
as it was, in both backends. -/
theorem claim_C3 (pool : Bool) (store : List CacheRow) (now tg : Int)
    (C K : String) (P : PyData) (season : Option Int)
    (hP : P.serializable = false) :
    NativeCache.set_cached_data pool store now C K P season = (false, store) ∧
    SupabaseCache.set_cached_data store now C K P season = (false, store) ∧
    NativeCache.get_cached_data pool
      (NativeCache.set_cached_data pool store now C K P season).2 tg C K =
      NativeCache.get_cached_data pool store tg C K := by
  have h1 : NativeCache.set_cached_data pool store now C K P season =
      (false, store) := by
    unfold NativeCache.set_cached_data
    cases pool
    · rfl
    · simp [hP]
  have h2 : SupabaseCache.set_cached_data store now C K P season =
      (false, store) := by
    unfold SupabaseCache.set_cached_data
    simp [hP]
  exact ⟨h1, h2, by rw [h1]⟩

/-- C3 witness: rejecting an unserializable payload leaves the previous row
readable. -/
theorem claim_C3_witness :
    NativeCache.set_cached_data true
      [⟨"k0", "events", PyData.null, none, 0⟩] 5 "events" "k0"
      (PyData.pyObject "set") none =
      (false, [⟨"k0", "events", PyData.null, none, 0⟩]) ∧
    SupabaseCache.set_cached_data
      [⟨"k0", "events", PyData.null, none, 0⟩] 5 "events" "k0"
      (PyData.array [PyData.pyObject "datetime"]) none =
      (false, [⟨"k0", "events", PyData.null, none, 0⟩]) := by
  constructor
  · exact (claim_C3 true [⟨"k0", "events", PyData.null, none, 0⟩] 5 0 "events"
      "k0" (PyData.pyObject "set") none rfl).1
  · exact (claim_C3 true [⟨"k0", "events", PyData.null, none, 0⟩] 5 0 "events"
      "k0" (PyData.array [PyData.pyObject "datetime"]) none rfl).2.1

/-- C4: a failing entity inside a matches/rankings pass is caught per-entity
— the pass over `l1 ++ e :: l2` always performs the refreshes of `l2`, no
matter how `e` (or anything in `l1`) ends; and an unhandled error in a pass
makes the loop sleep its backoff interval (events 300 s, matches/rankings
60 s) and continue: a loop run terminates early only on cancellation. -/
theorem claim_C4 :
    (∀ (l1 l2 : List String) (e : String)
        (fetch : String → Updater.EntityResult),
      Updater.refreshPass (l1 ++ e :: l2) fetch =
        Updater.refreshPass l1 fetch ++ (fetch e).writes ++
          Updater.refreshPass l2 fetch) ∧
    (∀ msg, Updater.eventsLoopStep (.error msg) = some 300) ∧
    (∀ msg, Updater.matchesLoopStep (.error msg) = some 60) ∧
    (∀ msg, Updater.rankingsLoopStep (.error msg) = some 60) ∧
    Updater.eventsLoopStep .cancelled = none ∧
    Updater.matchesLoopStep .cancelled = none ∧
    Updater.rankingsLoopStep .cancelled = none ∧
    (∀ outs : List Updater.PassOutcome,
      (∀ o ∈ outs, o ≠ Updater.PassOutcome.cancelled) →
      (Updater.runLoop Updater.eventsLoopStep outs).length = outs.length ∧
      (Updater.runLoop Updater.matchesLoopStep outs).length = outs.length ∧
      (Updater.runLoop Updater.rankingsLoopStep outs).length = outs.length) ∧
    (∀ outs : List Updater.PassOutcome,
      Updater.runLoop Updater.eventsLoopStep
        (Updater.PassOutcome.cancelled :: outs) = []) := by
  have hev : ∀ o, o ≠ Updater.PassOutcome.cancelled →
      (Updater.eventsLoopStep o).isSome = true := by
    intro o ho
    cases o with
    | ok => rfl
    | error m => rfl
    | cancelled => exact absurd rfl ho
  have hma : ∀ o, o ≠ Updater.PassOutcome.cancelled →
      (Updater.matchesLoopStep o).isSome = true := by
    intro o ho
    cases o with
    | ok => rfl
    | error m => rfl
    | cancelled => exact absurd rfl ho
  have hra : ∀ o, o ≠ Updater.PassOutcome.cancelled →
      (Updater.rankingsLoopStep o).isSome = true := by
    intro o ho
    cases o with
    | ok => rfl
    | error m => rfl
    | cancelled => exact absurd rfl ho
  refine ⟨?_, fun _ => rfl, fun _ => rfl, fun _ => rfl, rfl, rfl, rfl,
    ?_, fun _ => rfl⟩
  · intro l1 l2 e fetch
    rw [refreshPass_append, refreshPass_cons, ← List.append_assoc]
  · intro outs h
    exact ⟨runLoop_length Updater.eventsLoopStep hev outs h,
      runLoop_length Updater.matchesLoopStep hma outs h,
      runLoop_length Updater.rankingsLoopStep hra outs h⟩

/-- C4 witness: a concrete pass with a failing middle entity still writes the
third entity's data, and a loop script with an error still runs both
iterations. -/
theorem claim_C4_witness :
    Updater.refreshPass (["a"] ++ "b" :: ["c"])
        (fun e => if e == "b" then Updater.EntityResult.failed [] "boom"
          else Updater.EntityResult.done [⟨"matches", e⟩]) =
      Updater.refreshPass ["a"]
        (fun e => if e == "b" then Updater.EntityResult.failed [] "boom"
          else Updater.EntityResult.done [⟨"matches", e⟩]) ++
      ((fun e => if e == "b" then Updater.EntityResult.failed [] "boom"
          else Updater.EntityResult.done [⟨"matches", e⟩]) "b").writes ++
      Updater.refreshPass ["c"]
        (fun e => if e == "b" then Updater.EntityResult.failed [] "boom"
          else Updater.EntityResult.done [⟨"matches", e⟩]) ∧
    (Updater.runLoop Updater.eventsLoopStep
      [Updater.PassOutcome.error "x", Updater.PassOutcome.ok]).length = 2 := by
  constructor
  · exact claim_C4.1 ["a"] ["c"] "b"
      (fun e => if e == "b" then Updater.EntityResult.failed [] "boom"
        else Updater.EntityResult.done [⟨"matches", e⟩])
  · exact (claim_C4.2.2.2.2.2.2.2.1
      [Updater.PassOutcome.error "x", Updater.PassOutcome.ok] (by decide)).1

/-- C5: the classification step adds an entity whose window
`[windowStart, windowEnd + grace]` contains now, removes a member whose
grace period has passed, keeps a member at `now = windowEnd + grace - 1`,
and removes a member at `now = windowEnd + grace + 1`. -/
theorem claim_C5 :
    (∀ (active : List String) (now : Int) (ev : Updater.EventInfo),
      ev.dateStart ≤ now → now ≤ ev.dateEnd + Updater.graceSeconds →
      ev.code ∈ Updater.classifyEvent active now ev) ∧
    (∀ (active : List String) (now : Int) (ev : Updater.EventInfo),
      ev.code ∈ active → now > ev.dateEnd + Updater.graceSeconds →
      ev.code ∉ Updater.classifyEvent active now ev) ∧
    (∀ (active : List String) (code : String) (T0 T1 : Int),
      code ∈ active →
      code ∈ Updater.classifyEvent active (T1 + Updater.graceSeconds - 1)
        ⟨code, T0, T1⟩) ∧
    (∀ (active : List String) (code : String) (T0 T1 : Int),
      code ∈ active →
      code ∉ Updater.classifyEvent active (T1 + Updater.graceSeconds + 1)
        ⟨code, T0, T1⟩) := by
  refine ⟨?_, ?_, ?_, ?_⟩
  · intro active now ev h1 h2
    exact mem_classifyEvent_in_window active now ev h1 h2
  · intro active now ev hmem h
    exact not_mem_classifyEvent_past_grace active now ev h
  · intro active code T0 T1 hmem
    unfold Updater.classifyEvent
    split
    · rw [mem_setAdd]
      exact Or.inr hmem
    · split
      · rename_i h2
        exfalso
        have hgt := h2.2
        simp only at hgt
        omega
      · exact hmem
  · intro active code T0 T1 hmem
    apply not_mem_classifyEvent_past_grace
    show T1 + Updater.graceSeconds + 1 > T1 + Updater.graceSeconds
    omega

/-- C5 witness: concrete boundary classifications one second inside and one
second past the grace period. -/
theorem claim_C5_witness :
    "X" ∈ Updater.classifyEvent ["X"] (100 + Updater.graceSeconds - 1)
      ⟨"X", 0, 100⟩ ∧
    "X" ∉ Updater.classifyEvent ["X"] (100 + Updater.graceSeconds + 1)
      ⟨"X", 0, 100⟩ :=
  ⟨claim_C5.2.2.1 ["X"] "X" 0 100 (List.mem_singleton_self _),
    claim_C5.2.2.2 ["X"] "X" 0 100 (List.mem_singleton_self _)⟩

/-- C6 (amended): after the classification step over a listing with distinct
codes, every listed entity whose window (with one-day grace) contains now is
a member, and every listed entity past its grace period is not — but
membership is not equivalent to window containment: identifiers absent from
the listing, and members whose window has not started yet, are left
untouched, so prior manual adds can persist. -/
theorem claim_C6 (active : List String) (now : Int)
    (events : List Updater.EventInfo)
    (hnd : (events.map Updater.EventInfo.code).Nodup) :
    ∀ ev ∈ events,
      (ev.dateStart ≤ now → now ≤ ev.dateEnd + Updater.graceSeconds →
        ev.code ∈ Updater.refreshEventsClassify active now events) ∧
      (now > ev.dateEnd + Updater.graceSeconds →
        ev.code ∉ Updater.refreshEventsClassify active now events) := by
  intro ev hev
  obtain ⟨l1, l2, rfl⟩ := List.append_of_mem hev
  have hnotin : ev.code ∉ l2.map Updater.EventInfo.code := by
    rw [List.map_append, List.map_cons] at hnd
    exact (List.nodup_cons.mp (List.Nodup.of_append_right hnd)).1
  have hfold : Updater.refreshEventsClassify active now (l1 ++ ev :: l2) =
      Updater.refreshEventsClassify
        (Updater.classifyEvent
          (Updater.refreshEventsClassify active now l1) now ev) now l2 := by
    unfold Updater.refreshEventsClassify
    rw [List.foldl_append, List.foldl_cons]
  constructor
  · intro h1 h2
    rw [hfold, mem_refreshEventsClassify_of_notin now l2 _ _ hnotin]
    exact mem_classifyEvent_in_window _ now ev h1 h2
  · intro h hmem
    rw [hfold] at hmem
    exact not_mem_classifyEvent_past_grace _ now ev h
      ((mem_refreshEventsClassify_of_notin now l2 _ _ hnotin).mp hmem)

/-- C6 counterexample: a manually added member whose window has not started
survives classification, so after the step it is a member although its
window does not contain now — the claimed "member iff window contains now"
invariant fails. -/
theorem claim_C6_counterexample :
    "X" ∈ Updater.refreshEventsClassify ["X"] 5 [⟨"X", 10, 20⟩] ∧
    ¬ ((10 : Int) ≤ 5 ∧ (5 : Int) ≤ 20 + Updater.graceSeconds) := by
  constructor
  · decide
  · intro h
    exact absurd h.1 (by decide)

/-- C6 witness: a listed event in its window becomes a member; a listed
event past its grace period is dropped. -/
theorem claim_C6_witness :
    "E" ∈ Updater.refreshEventsClassify [] 5 [⟨"E", 0, 10⟩] ∧
    "F" ∉ Updater.refreshEventsClassify ["F"] 999999 [⟨"F", 0, 10⟩] := by
  constructor
  · exact ((claim_C6 [] 5 [⟨"E", 0, 10⟩] (by decide) ⟨"E", 0, 10⟩
      (List.mem_singleton_self _)).1 (by decide) (by decide))
  · exact ((claim_C6 ["F"] 999999 [⟨"F", 0, 10⟩] (by decide) ⟨"F", 0, 10⟩
      (List.mem_singleton_self _)).2 (by decide))

/-- C7 (amended): with a nonempty key, `invalidate` deletes exactly that
key's row whatever the category argument (nonempty key takes precedence),
and `stats().totalEntries` drops by exactly 1 if the key existed and 0
otherwise; with only a nonempty category it deletes exactly that category's
rows; with no filter it empties the store.  Python truthiness makes an
empty-string key or category behave as absent, falling through to the next
filter. -/
theorem claim_C7 (store : List CacheRow) (hnd : keysNodup store) :
    (∀ K : String, K ≠ "" → ∀ ctf : Option String,
      NativeCache.invalidate_cache true store ctf (some K) =
        (true, store.filter (fun r => !(r.cache_key == K))) ∧
      (∀ r ∈ store, r.cache_key ≠ K →
        r ∈ (NativeCache.invalidate_cache true store ctf (some K)).2) ∧
      (∀ r ∈ (NativeCache.invalidate_cache true store ctf (some K)).2,
        r ∈ store ∧ r.cache_key ≠ K) ∧
      ((∃ r ∈ store, r.cache_key = K) →
        (NativeCache.get_cache_stats true
            (NativeCache.invalidate_cache true store ctf (some K)).2).total
          + 1 = (NativeCache.get_cache_stats true store).total) ∧
      ((∀ r ∈ store, r.cache_key ≠ K) →
        (NativeCache.get_cache_stats true
            (NativeCache.invalidate_cache true store ctf (some K)).2).total
          = (NativeCache.get_cache_stats true store).total)) ∧
    (∀ Cty : String, Cty ≠ "" →
      NativeCache.invalidate_cache true store (some Cty) none =
        (true, store.filter (fun r => !(r.cache_type == Cty)))) ∧
    NativeCache.invalidate_cache true store none none = (true, []) ∧
    (∀ K : String, K ≠ "" → ∀ ctf : Option String,
      SupabaseCache.invalidate_cache store ctf (some K) =
        (true, store.filter (fun r => !(r.cache_key == K)))) ∧
    (∀ Cty : String, Cty ≠ "" →
      SupabaseCache.invalidate_cache store (some Cty) none =
        (true, store.filter (fun r => !(r.cache_type == Cty)))) ∧
    SupabaseCache.invalidate_cache store none none = (true, []) := by
  have hkey : ∀ K : String, K ≠ "" → ∀ ctf : Option String,
      NativeCache.invalidate_cache true store ctf (some K) =
        (true, store.filter (fun r => !(r.cache_key == K))) := by
    intro K hK ctf
    unfold NativeCache.invalidate_cache
    simp [strTruthy, hK]
  refine ⟨?_, ?_, ?_, ?_, ?_, ?_⟩
  · intro K hK ctf
    refine ⟨hkey K hK ctf, ?_, ?_, ?_, ?_⟩
    · intro r hr hrk
      rw [hkey K hK ctf]
      exact List.mem_filter.mpr ⟨hr, by simp [hrk]⟩
    · intro r hr
      rw [hkey K hK ctf] at hr
      have := List.mem_filter.mp hr
      refine ⟨this.1, ?_⟩
      intro hcontra
      have hb : (r.cache_key == K) = false := by
        have h2 := this.2
        cases hbk : (r.cache_key == K)
        · rfl
        · rw [hbk] at h2
          exact absurd h2 (by decide)
      exact (beq_eq_false_iff_ne.mp hb) hcontra
    · intro hx
      rw [hkey K hK ctf, stats_total_eq_length, stats_total_eq_length]
      exact filter_out_key_length hnd hx
    · intro hx
      rw [hkey K hK ctf, stats_total_eq_length, stats_total_eq_length,
        filter_out_key_absent hx]
  · intro Cty hCty
    unfold NativeCache.invalidate_cache
    simp [strTruthy, hCty]
  · rfl
  · intro K hK ctf
    unfold SupabaseCache.invalidate_cache
    simp [strTruthy, hK]
  · intro Cty hCty
    unfold SupabaseCache.invalidate_cache
    simp [strTruthy, hCty]
  · rfl

/-- C7 counterexample: the claim as stated fails for the empty-string key —
a key is given, no row carries it, yet the whole two-row store is truncated
(total drops by 2, not 0), because Python treats `""` as "no key given". -/
theorem claim_C7_counterexample :
    NativeCache.invalidate_cache true
      [⟨"a", "events", PyData.null, none, 0⟩,
       ⟨"b", "matches", PyData.null, none, 0⟩] none (some "") =
      (true, []) ∧
    (∀ r ∈ ([⟨"a", "events", PyData.null, none, 0⟩,
       ⟨"b", "matches", PyData.null, none, 0⟩] : List CacheRow),
      r.cache_key ≠ "") ∧
    ([⟨"a", "events", PyData.null, none, 0⟩,
      ⟨"b", "matches", PyData.null, none, 0⟩] : List CacheRow).length = 2 := by
  refine ⟨rfl, ?_, rfl⟩
  intro r hr
  rcases List.mem_cons.mp hr with rfl | hr'
  · decide
  · rcases List.mem_cons.mp hr' with rfl | hr''
    · decide
    · cases hr''

/-- C7 witness: deleting an existing key from a two-row store removes exactly
its row and drops the total by one. -/
theorem claim_C7_witness :
    NativeCache.invalidate_cache true
      [⟨"a", "events", PyData.null, none, 0⟩,
       ⟨"b", "matches", PyData.null, none, 0⟩] none (some "a") =
      (true, ([⟨"a", "events", PyData.null, none, 0⟩,
        ⟨"b", "matches", PyData.null, none, 0⟩] : List CacheRow).filter
          (fun r => !(r.cache_key == "a"))) ∧
    (NativeCache.get_cache_stats true
        (NativeCache.invalidate_cache true
          [⟨"a", "events", PyData.null, none, 0⟩,
           ⟨"b", "matches", PyData.null, none, 0⟩] none (some "a")).2).total
      + 1 =
      (NativeCache.get_cache_stats true
        [⟨"a", "events", PyData.null, none, 0⟩,
         ⟨"b", "matches", PyData.null, none, 0⟩]).total := by
  have h := claim_C7
    [⟨"a", "events", PyData.null, none, 0⟩,
     ⟨"b", "matches", PyData.null, none, 0⟩] (by simp [keysNodup])
  exact ⟨(h.1 "a" (by decide) none).1,
    (h.1 "a" (by decide) none).2.2.2.1
      ⟨⟨"a", "events", PyData.null, none, 0⟩, List.mem_cons_self _ _, rfl⟩⟩

/-- `get_cache_stats` with a live pool, written out. -/
theorem stats_unfold (store : List CacheRow) :
    NativeCache.get_cache_stats true store =
      NativeCache.StatsResult.ok
        ((((store.map (fun r => r.cache_type)).dedup).map (fun t =>
          (store.filter (fun r => r.cache_type == t)).length)).sum)
        (((store.map (fun r => r.cache_type)).dedup).map (fun t =>
          (t, NativeCache.TypeStat.mk
                (store.filter (fun r => r.cache_type == t)).length
                (((store.filter (fun r => r.cache_type == t)).map
                    (fun r => r.last_updated)).max?)
                (((store.filter (fun r => r.cache_type == t)).map
                    (fun r => r.last_updated)).min?)))) := by
  unfold NativeCache.get_cache_stats
  simp only [List.map_map]
  rfl

/-- C8 (amended): the native `stats()` is total, returns zero counts on the
empty store, its `totalEntries` is the exact row count, and its per-category
breakdown lists exactly the categories present with their count and
newest/oldest timestamps; the Supabase `stats()` is total and returns the
exact row count, but only the total — it carries no per-category
breakdown. -/
theorem claim_C8 (store : List CacheRow) :
    NativeCache.get_cache_stats true [] = NativeCache.StatsResult.ok 0 [] ∧
    (NativeCache.get_cache_stats true store).total = store.length ∧
    (∀ t st, (t, st) ∈ (NativeCache.get_cache_stats true store).byType →
      st.count = (store.filter (fun r => r.cache_type == t)).length ∧
      st.newest = ((store.filter (fun r => r.cache_type == t)).map
        (fun r => r.last_updated)).max? ∧
      st.oldest = ((store.filter (fun r => r.cache_type == t)).map
        (fun r => r.last_updated)).min?) ∧
    (∀ t : String,
      (∃ st, (t, st) ∈ (NativeCache.get_cache_stats true store).byType) ↔
        t ∈ store.map (fun r => r.cache_type)) ∧
    SupabaseCache.get_cache_stats store = ⟨store.length⟩ ∧
    SupabaseCache.get_cache_stats [] = ⟨0⟩ := by
  refine ⟨rfl, stats_total_eq_length store, ?_, ?_, rfl, rfl⟩
  · intro t st hmem
    rw [stats_unfold] at hmem
    simp only [NativeCache.StatsResult.byType] at hmem
    rcases List.mem_map.mp hmem with ⟨u, hu, hpair⟩
    obtain ⟨rfl, rfl⟩ : u = t ∧ NativeCache.TypeStat.mk
        (store.filter (fun r => r.cache_type == u)).length
        (((store.filter (fun r => r.cache_type == u)).map
          (fun r => r.last_updated)).max?)
        (((store.filter (fun r => r.cache_type == u)).map
          (fun r => r.last_updated)).min?) = st := by
      exact ⟨congrArg Prod.fst hpair, congrArg Prod.snd hpair⟩
    exact ⟨rfl, rfl, rfl⟩
  · intro t
    rw [stats_unfold]
    simp only [NativeCache.StatsResult.byType]
    constructor
    · rintro ⟨st, hst⟩
      rcases List.mem_map.mp hst with ⟨u, hu, hpair⟩
      have : u = t := congrArg Prod.fst hpair
      subst this
      exact List.mem_dedup.mp hu
    · intro ht
      refine ⟨_, List.mem_map.mpr ⟨t, List.mem_dedup.mpr ht, rfl⟩⟩

/-- C8 counterexample: the Supabase `stats()` of two stores whose
per-category breakdowns differ (one `events` row vs one `matches` row) are
identical, so its result cannot contain the claimed per-category
breakdown. -/
theorem claim_C8_counterexample :
    SupabaseCache.get_cache_stats [⟨"a", "events", PyData.null, none, 0⟩] =
      SupabaseCache.get_cache_stats [⟨"a", "matches", PyData.null, none, 0⟩] ∧
    ("events" : String) ≠ "matches" := by
  exact ⟨rfl, by decide⟩

/-- C8 witness: stats of a concrete one-row store. -/
theorem claim_C8_witness :
    (NativeCache.get_cache_stats true
      [⟨"k", "events", PyData.null, none, 5⟩]).total = 1 ∧
    (⟨1, some 5, some 5⟩ : NativeCache.TypeStat).count =
      (([⟨"k", "events", PyData.null, none, 5⟩] : List CacheRow).filter
        (fun r => r.cache_type == "events")).length := by
  refine ⟨(claim_C8 [⟨"k", "events", PyData.null, none, 5⟩]).2.1, ?_⟩
  exact ((claim_C8 [⟨"k", "events", PyData.null, none, 5⟩]).2.2.1 "events"
    ⟨1, some 5, some 5⟩ (by decide)).1

/-- C9 (amended): with a shared secret configured, a correctly signed
request whose body parses to JSON from which the event-row extraction
succeeds (a JSON object, with object-shaped `message_data` and — where
consulted — `event` values) returns 200 and appends exactly that one event
row; a correctly signed body parsing to JSON on which the extraction raises
(for example any non-object payload) returns 500 with no row appended; any
altered signature returns 401 with no row appended, whatever the parser
would say — the rejection happens before parsing; a correctly signed but
malformed-JSON body returns 400 with no row appended. -/
theorem claim_C9 (s : String) (hs : s ≠ "")
    (mac : String → String → String) (log : List Webhooks.EventRow)
    (body : String) :
    (∀ (parse : String → Option PyData) (payload : PyData)
        (row : Webhooks.EventRow),
      parse body = some payload → Webhooks.mkEventRow payload = some row →
      Webhooks.handle_webhook (some s) mac parse true log
        (some (mac s body)) body = (200, log ++ [row])) ∧
    (∀ (parse : String → Option PyData) (payload : PyData),
      parse body = some payload → Webhooks.mkEventRow payload = none →
      ∀ pool : Bool,
      Webhooks.handle_webhook (some s) mac parse pool log
        (some (mac s body)) body = (500, log)) ∧
    (∀ (parse : String → Option PyData) (pool : Bool) (sig : String),
      sig ≠ mac s body →
      Webhooks.handle_webhook (some s) mac parse pool log (some sig) body =
        (401, log)) ∧
    (∀ parse : String → Option PyData, parse body = none → ∀ pool : Bool,
      Webhooks.handle_webhook (some s) mac parse pool log
        (some (mac s body)) body = (400, log)) := by
  have hstr : strTruthy (some s) = true := by simp [strTruthy, hs]
  refine ⟨?_, ?_, ?_, ?_⟩
  · intro parse payload row hp hrow
    unfold Webhooks.handle_webhook Webhooks.verify_signature
      Webhooks.process_webhook_event
    simp [hstr, hp, hrow]
  · intro parse payload hp hrow pool
    unfold Webhooks.handle_webhook Webhooks.verify_signature
      Webhooks.process_webhook_event
    simp [hstr, hp, hrow]
  · intro parse pool sig hsig
    unfold Webhooks.handle_webhook Webhooks.verify_signature
    simp [hstr, hsig]
  · intro parse hp pool
    unfold Webhooks.handle_webhook Webhooks.verify_signature
    simp [hstr, hp]

/-- C9 counterexample: a correctly signed body parsing to JSON `null` —
well-formed JSON, so neither the 401 nor the 400 case — makes
`payload.get('message_type', 'unknown')` raise `AttributeError`, and the
server answers 500 with zero rows appended, not the claimed 200 with one
row. -/
theorem claim_C9_counterexample :
    Webhooks.handle_webhook (some "sec") (fun s b => s ++ b)
      (fun _ => some PyData.null) true [] (some ("sec" ++ "body")) "body" =
      (500, ([] : List Webhooks.EventRow)) ∧
    (fun _ : String => some PyData.null) "body" = some PyData.null ∧
    (fun s b : String => s ++ b) "sec" "body" = "sec" ++ "body" :=
  ⟨rfl, rfl, rfl⟩

/-- C9 witness: a correctly signed well-shaped payload appends exactly one
row with its extracted fields; the same body under an altered signature
yields 401 and no row. -/
theorem claim_C9_witness :
    Webhooks.handle_webhook (some "sec") (fun s b => s ++ b)
      (fun _ => some (PyData.object
        [("message_type", PyData.string "match_score"),
         ("message_data", PyData.object
           [("event_key", PyData.string "2024cmp")])])) true []
      (some ("sec" ++ "body")) "body" =
      (200, [⟨PyData.string "match_score", some (PyData.string "2024cmp"),
        PyData.object [("event_key", PyData.string "2024cmp")]⟩]) ∧
    Webhooks.handle_webhook (some "sec") (fun s b => s ++ b)
      (fun _ => some (PyData.object
        [("message_type", PyData.string "match_score"),
         ("message_data", PyData.object
           [("event_key", PyData.string "2024cmp")])])) true []
      (some "Xecbody") "body" = (401, []) := by
  have h := claim_C9 "sec" (by decide) (fun s b => s ++ b) [] "body"
  exact ⟨h.1 _ _ _ rfl rfl, h.2.2.1 _ true "Xecbody" (by decide)⟩

/-- C10: with the connection pool uninitialized every cache operation
short-circuits: `get` misses, `set` and `invalidate` return `False` leaving
the table untouched, and `stats` returns the error dict — not zero
counts. -/
theorem claim_C10 (store : List CacheRow) (now : Int) (C K : String)
    (P : PyData) (season : Option Int) (ctf kf : Option String) :
    NativeCache.get_cached_data false store now C K = none ∧
    NativeCache.set_cached_data false store now C K P season =
      (false, store) ∧
    NativeCache.invalidate_cache false store ctf kf = (false, store) ∧
    NativeCache.get_cache_stats false store =
      NativeCache.StatsResult.error "Database not initialized" ∧
    NativeCache.get_cache_stats false store ≠
      NativeCache.StatsResult.ok 0 [] := by
  refine ⟨rfl, rfl, rfl, rfl, ?_⟩
  intro h
  exact NativeCache.StatsResult.noConfusion h
